import Mathlib

/-!
Verification of the medkit `codebase_index` ingestion/update pipeline.

The Rust sources under `src/codebase_index/src/` (ingestion.rs, updater.rs,
utils.rs, main.rs, queries.rs) are shallowly embedded below.  Network calls
are modelled as a trace of `Call` values (the JSON payload fields the client
sends), the remote graph store as an explicit `Store` state for the delete
path, and external collaborators (tree-sitter, the embedding HTTP service)
as oracle parameters.  Concurrently spawned sibling tasks are modelled by a
sequential schedule; where a claim depends on the schedule the schedule is
made an explicit permutation parameter (`sibling_order`).
-/

namespace Medkit

/-! ## Chunker (spec §4.3).

Modelled from the spec: `chunk_entity` (utils.rs:60-66) delegates to the
external `chonkier` crate (`RecursiveChunker::new(tokenizer, 2048,
RecursiveRules::default())`), whose code is not part of this repository.
Following §4.3: a recursive size-bounded chunker with target 2048
characters and a hierarchical separator ladder (paragraph/line, sentence,
word, character); a piece longer than the target is re-split with the next
separator of the ladder, and at the bottom it is cut into raw
2048-character slices. -/

def CHUNK_TARGET : Nat := 2048

/-- Separator ladder of §4.3 (line, sentence, word); the character level is
the `hardSplit` fallback. -/
def SEPARATOR_LADDER : List Char := ['\n', '.', ' ']

/-- Split a character list into pieces, each piece ending with the
separator except possibly the last.  Concatenation of the pieces is the
input. -/
def splitAfter (sep : Char) : List Char → List (List Char)
  | [] => []
  | c :: cs =>
    match splitAfter sep cs with
    | [] => [[c]]
    | p :: ps => if c = sep then [c] :: p :: ps else (c :: p) :: ps

/-- Character-level fallback: cut into consecutive `CHUNK_TARGET`-sized
slices. -/
def hardSplit (l : List Char) : List (List Char) :=
  if h : l = [] then []
  else l.take CHUNK_TARGET :: hardSplit (l.drop CHUNK_TARGET)
termination_by l.length
decreasing_by
  simp only [List.length_drop]
  have hne : l.length ≠ 0 := fun hl => h (List.eq_nil_of_length_eq_zero hl)
  simp only [CHUNK_TARGET]
  omega

/-- Recursive chunking with a given separator ladder. -/
def chunkWith : List Char → List Char → List (List Char)
  | [], l =>
    if l = [] then []
    else if l.length ≤ CHUNK_TARGET then [l]
    else hardSplit l
  | sep :: rest, l =>
    if l = [] then []
    else if l.length ≤ CHUNK_TARGET then [l]
    else ((splitAfter sep l).map fun p => chunkWith rest p).flatten

/-- Modelled from the spec: the chunker of §4.3 applied with the fixed
ladder, lifted to `String` (utils.rs:60-66 always returns `Ok`, so the
`Result` wrapper is dropped). -/
def chunk_entity (text : String) : List String :=
  (chunkWith SEPARATOR_LADDER text.data).map fun p => String.mk p

/-! ## Whitespace, trim and the embedding client (utils.rs:69-129). -/

/-- Rust `char::is_whitespace`: the Unicode `White_Space` property. -/
def rust_is_whitespace (c : Char) : Bool :=
  let n := c.toNat
  n == 9 || n == 10 || n == 11 || n == 12 || n == 13 || n == 32 ||
  n == 0x85 || n == 0xA0 || n == 0x1680 ||
  (0x2000 ≤ n && n ≤ 0x200A) ||
  n == 0x2028 || n == 0x2029 || n == 0x202F || n == 0x205F || n == 0x3000

/-- Rust `str::trim`: drop leading and trailing whitespace. -/
def rust_trim (l : List Char) : List Char :=
  ((l.dropWhile rust_is_whitespace).reverse.dropWhile rust_is_whitespace).reverse

/-- `embed_entity_async` (utils.rs:69-129).  The first component is the
trace of texts POSTed to the Gemini embedding endpoint; `env_key` models
`env::var("GEMINI_API_KEY")` and `oracle` the HTTP round-trip including
response decoding.  The guard `text.trim().is_empty()` returns an error
before the rate limiter, the key lookup and any request. -/
def embed_entity_async (env_key : Option String)
    (oracle : String → Except String (List Float)) (text : String) :
    List String × Except String (List Float) :=
  if (rust_trim text.data).isEmpty then
    ([], Except.error "Cannot embed empty text")
  else
    match env_key with
    | none => ([], Except.error "GEMINI_API_KEY environment variable not set")
    | some _ => ([text], oracle text)

/-! ## Embedding dispatcher (main.rs:51-82) and its counters. -/

structure EmbeddingJob where
  chunk : String
  entity_id : String
  port : Nat
deriving DecidableEq

structure Counters where
  pending : Nat
  completed : Nat
deriving DecidableEq

/-- One job of the dispatcher stream (main.rs:57-77).  An empty chunk is
skipped.  Otherwise `PENDING_EMBEDDINGS` is incremented, the chunk is
embedded, and only on embedding success is `COMPLETED_EMBEDDINGS`
incremented (a failure of the subsequent `embedSuperEntity` POST is merely
logged, so it does not affect the counters; an embedding failure skips the
increment entirely). -/
def dispatch_job (env_key : Option String)
    (oracle : String → Except String (List Float))
    (j : EmbeddingJob) (c : Counters) : Counters :=
  if j.chunk == "" then c
  else
    let c1 : Counters := { c with pending := c.pending + 1 }
    match (embed_entity_async env_key oracle j.chunk).2 with
    | Except.ok _ => { c1 with completed := c1.completed + 1 }
    | Except.error _ => c1

/-- Exit condition of `wait_for_embeddings` (main.rs:157): the loop spins
while `COMPLETED_EMBEDDINGS < PENDING_EMBEDDINGS`. -/
def wait_can_exit (c : Counters) : Bool :=
  decide (c.pending ≤ c.completed)

/-! ## Entity extraction data model (ingestion.rs:15-22, utils.rs:167-175). -/

/-- `OwnedNode` (ingestion.rs:15-22): a detached syntax-tree subtree. -/
inductive OwnedNode where
  | mk (kind : String) (start_byte : Nat) (end_byte : Nat) (text : String)
       (children : List OwnedNode)

def OwnedNode.kind : OwnedNode → String
  | .mk k _ _ _ _ => k

def OwnedNode.start_byte : OwnedNode → Nat
  | .mk _ s _ _ _ => s

def OwnedNode.end_byte : OwnedNode → Nat
  | .mk _ _ e _ _ => e

def OwnedNode.text : OwnedNode → String
  | .mk _ _ _ t _ => t

def OwnedNode.children : OwnedNode → List OwnedNode
  | .mk _ _ _ _ cs => cs

/-- `index-types.json` parsed as a JSON object: extension → array value.
A key whose value is not an array behaves, in every place the source
consults it (`types.as_array()` failing), exactly like a missing key, and
array elements that are not strings are ignored by every
`.any(|v| v.as_str()...)` test, so entries are modelled as string lists. -/
def IndexTypes : Type := List (String × List String)

def IndexTypes.find (it : IndexTypes) (e : String) : Option (List String) :=
  (List.find? (fun kv => kv.1 == e) it).map (fun kv => kv.2)

/-- The trace of store requests and channel sends the client performs; each
constructor carries the payload fields of the corresponding endpoint.  The
three `Cascade` constructors stand for the recursive delete conversations
of utils.rs:179-287, which issue only `get*` / `delete*` endpoints and
never any `create*` endpoint or channel send. -/
inductive Call where
  | createSuperFolder (root_id name : String)
  | createSubFolder (folder_id name : String)
  | createSuperFile (root_id name extension text : String)
  | createFile (folder_id name extension text : String)
  | createSuperEntity (file_id entity_type text : String)
      (start_byte end_byte order : Nat)
  | createSubEntity (entity_id entity_type text : String)
      (start_byte end_byte order : Nat)
  | enqueueJob (chunk entity_id : String)
  | updateFile (file_id text : String)
  | deleteFolderCascade (folder_id : String)
  | deleteFileCascade (file_id : String)
  | deleteEntitiesCascade (file_id : String)
deriving DecidableEq

/-- Ids handed back by the store for created objects are modelled by a
fresh-name supply threaded through the trace functions. -/
def mkId (n : Nat) : String := "id" ++ toString n

def Call.is_entity_create : Call → Bool
  | .createSuperEntity _ _ _ _ _ _ => true
  | .createSubEntity _ _ _ _ _ _ => true
  | _ => false

def Call.is_super_entity_create : Call → Bool
  | .createSuperEntity _ _ _ _ _ _ => true
  | _ => false

/-- Extension normalisation inlined in process_entity
(ingestion.rs:430-438): `cc`/`cxx` → `cpp`, `h` → `c`, `js`/`jsx` → `js`. -/
def normalise_extension (e : String) : String :=
  if e == "cc" || e == "cxx" then "cpp"
  else if e == "h" then "c"
  else if e == "js" || e == "jsx" then "js"
  else e

/-! ## process_entity (ingestion.rs:406-509).

Sibling subtasks are spawned concurrently in the source; the trace below
fixes the sequential schedule in which the spawned tasks perform their
`fetch_add` in spawn (source) order.  The schedule-dependence of the
`order` attribute itself is analysed separately by `sibling_order`.  Store
requests are modelled on their happy path (every create returns an id). -/

mutual

/-- `process_entity` (ingestion.rs:406-509): Python `block` passthrough,
index-type filtering on the normalised extension, entity creation,
chunk-job emission for super entities, and child recursion with a fresh
sibling counter starting at 1. -/
def process_entity : OwnedNode → String → Bool → Nat → String → IndexTypes →
    Nat → List Call × Nat
  | .mk kind sb eb text children, parent_id, is_super, order, extension, it,
      fresh =>
    if extension == "py" && kind == "block" && !children.isEmpty then
      process_children children parent_id extension it 1 fresh
    else
      match it.find (normalise_extension extension) with
      | none => ([], fresh)
      | some types_array =>
        if types_array.any (fun s => s == kind) ||
           types_array.any (fun s => s == "ALL") then
          let entity_id := mkId fresh
          let create :=
            if is_super then
              Call.createSuperEntity parent_id kind text sb eb order
            else
              Call.createSubEntity parent_id kind text sb eb order
          let jobs :=
            if is_super then
              (chunk_entity text).map fun c => Call.enqueueJob c entity_id
            else []
          let rest :=
            if children.isEmpty then ([], fresh + 1)
            else process_children children entity_id extension it 1 (fresh + 1)
          (create :: jobs ++ rest.1, rest.2)
        else ([], fresh)

/-- The child loops of ingestion.rs:424-428 and 487-502: each child is
processed with `is_super = false` and a sibling counter counting up from
`order`. -/
def process_children : List OwnedNode → String → String → IndexTypes → Nat →
    Nat → List Call × Nat
  | [], _, _, _, _, fresh => ([], fresh)
  | c :: cs, parent_id, extension, it, order, fresh =>
    let r1 := process_entity c parent_id false order extension it fresh
    let r2 := process_children cs parent_id extension it (order + 1) r1.2
    (r1.1 ++ r2.1, r2.2)

end

/-- The per-top-node body of `ingest_entities` (ingestion.rs:340-396): the
"has super content" preamble (lines 343-394) consults the RAW (not
normalised) extension, requires some array element other than `"ALL"` and
the node's kind to be listed, and then performs its own
`createSuperEntity` plus one embedding job per chunk — after which
`process_entity` runs on the same node regardless. -/
def ingest_top_node (owned : OwnedNode) (file_id : String) (order : Nat)
    (extension : String) (it : IndexTypes) (fresh : Nat) : List Call × Nat :=
  let pre :=
    match it.find extension with
    | none => ([], fresh)
    | some types_array =>
      if types_array.any (fun s => !(s == "ALL")) then
        if types_array.any (fun s => s == owned.kind) then
          let entity_id := mkId fresh
          (Call.createSuperEntity file_id owned.kind owned.text
              owned.start_byte owned.end_byte order ::
            ((chunk_entity owned.text).map fun c => Call.enqueueJob c entity_id),
           fresh + 1)
        else ([], fresh)
      else ([], fresh)
  let main := process_entity owned file_id true order extension it pre.2
  (pre.1 ++ main.1, main.2)

def ingest_top_nodes (nodes : List OwnedNode) (file_id : String) (order : Nat)
    (extension : String) (it : IndexTypes) (fresh : Nat) : List Call × Nat :=
  match nodes with
  | [] => ([], fresh)
  | n :: ns =>
    let r1 := ingest_top_node n file_id order extension it fresh
    let r2 := ingest_top_nodes ns file_id (order + 1) extension it r1.2
    (r1.1 ++ r2.1, r2.2)

/-- `ingest_entities` (ingestion.rs:325-402): the sibling counter starts at
1; tasks are modelled in spawn (source) order. -/
def ingest_entities (nodes : List OwnedNode) (file_id : String)
    (extension : String) (it : IndexTypes) (fresh : Nat) : List Call × Nat :=
  ingest_top_nodes nodes file_id 1 extension it fresh

/-! ## Sibling order assignment under an arbitrary schedule.

In ingestion.rs:340-341 and 495-496 the spawned sibling task body BEGINS
with `order_counter.fetch_add(1, SeqCst)` on a shared counter initialised
to 1; the fetch therefore happens inside the spawned task, after the spawn
loop.  Over one run the `n` sibling fetches happen in some total order
chosen by the scheduler; `σ i` is the number of sibling fetches that
precede sibling `i`'s, so a run's schedule is a bijection `σ` and sibling
`i` (0-based source position) observes counter value `σ i + 1`. -/
def sibling_order (n : Nat) (σ : Fin n → Fin n) (i : Fin n) : Nat :=
  (σ i : Nat) + 1

/-! ## Language dispatch and file processing (utils.rs:152-165,
ingestion.rs:162-323). -/

inductive Lang where
  | python | rust | zig | cpp | c | typescript | tsx | javascript
deriving DecidableEq

/-- `get_language` (utils.rs:152-165).  `Path::extension()` composed with
`to_str` is modelled as an `Option String` (`none` when the path has no
extension or it is not valid UTF-8). -/
def get_language (ext : Option String) : Option Lang :=
  match ext with
  | some "py" => some .python
  | some "rs" => some .rust
  | some "zig" => some .zig
  | some "cpp" => some .cpp
  | some "cc" => some .cpp
  | some "cxx" => some .cpp
  | some "c" => some .c
  | some "h" => some .c
  | some "ts" => some .typescript
  | some "mts" => some .typescript
  | some "cts" => some .typescript
  | some "tsx" => some .tsx
  | some "js" => some .javascript
  | some "jsx" => some .javascript
  | some "mjs" => some .javascript
  | some "mjsx" => some .javascript
  | some "cjs" => some .javascript
  | some "cjsx" => some .javascript
  | _ => none

/-- `file_types.json`: the `supported` and `unsupported` arrays.  As for
`IndexTypes`, non-string elements are invisible to every use site. -/
structure FileTypes where
  supported : List String
  unsupported : List String

/-- The membership tests of ingestion.rs:216 and 248 (and updater.rs:347,
369): `list.iter().any(|v| s == extension || s == "ALL")`. -/
def ext_listed (l : List String) (extension : String) : Bool :=
  l.any fun s => s == extension || s == "ALL"

/-- The chunk loop of `process_unsupported_file` (ingestion.rs:264-323):
one `createSuperEntity` with `entity_type = "chunk"`, `start_byte = 0`,
`end_byte = chunk.len()` per chunk, each followed by one embedding job
(happy path: the create returned an id).  The spawned chunk tasks are
modelled in spawn (source) order; `end_byte` uses the character count
where the source uses the byte count. -/
def process_unsupported_chunks : List String → String → Nat → Nat →
    List Call × Nat
  | [], _, _, fresh => ([], fresh)
  | c :: cs, file_id, order, fresh =>
    let entity_id := mkId fresh
    let rest := process_unsupported_chunks cs file_id (order + 1) (fresh + 1)
    (Call.createSuperEntity file_id "chunk" c 0 c.length order ::
       Call.enqueueJob c entity_id :: rest.1, rest.2)

/-- `process_file` (ingestion.rs:162-262) for a readable file.  `ext` is
the path's extension; the local `extension` string defaults to `"txt"`
(lines 181-184).  `parse` is the tree-sitter oracle returning the root's
direct children as `OwnedNode`s (`build_owned_nodes`). -/
def process_file (parse : Lang → String → List OwnedNode) (name : String)
    (ext : Option String) (text : String) (parent_id : String)
    (is_super : Bool) (it : IndexTypes) (ft : FileTypes) (fresh : Nat) :
    List Call × Nat :=
  let extension := ext.getD "txt"
  let fileCall :=
    if is_super then Call.createSuperFile parent_id name extension text
    else Call.createFile parent_id name extension text
  match get_language ext with
  | some lang =>
    if !(ext_listed ft.supported extension) then ([fileCall], fresh)
    else
      let file_id := mkId fresh
      let r := ingest_entities (parse lang text) file_id extension it (fresh + 1)
      (fileCall :: r.1, r.2)
  | none =>
    if !(ext_listed ft.unsupported extension) then ([fileCall], fresh)
    else
      let file_id := mkId fresh
      let r := process_unsupported_chunks (chunk_entity text) file_id 1 (fresh + 1)
      (fileCall :: r.1, r.2)

/-- `update_file` (updater.rs:308-384): POST `updateFile`, stop unless the
extension is listed, cascade-delete the file's existing entities, then
re-ingest (supported: `ingest_entities` on the fresh parse; unsupported:
the chunk loop). -/
def update_file (parse : Lang → String → List OwnedNode) (ext : Option String)
    (text : String) (file_id : String) (it : IndexTypes) (ft : FileTypes)
    (fresh : Nat) : List Call × Nat :=
  let extension := ext.getD "txt"
  let upd := Call.updateFile file_id text
  match get_language ext with
  | some lang =>
    if !(ext_listed ft.supported extension) then ([upd], fresh)
    else
      let r := ingest_entities (parse lang text) file_id extension it fresh
      (upd :: Call.deleteEntitiesCascade file_id :: r.1, r.2)
  | none =>
    if !(ext_listed ft.unsupported extension) then ([upd], fresh)
    else
      let r := process_unsupported_chunks (chunk_entity text) file_id 1 fresh
      (upd :: Call.deleteEntitiesCascade file_id :: r.1, r.2)

/-! ## Directory walk: populate (ingestion.rs:71-159). -/

/-- A filesystem entry as the walker sees it: files carry extension, text
(assumed readable) and optional modification time in whole seconds (the
granularity at which updater.rs compares times). -/
inductive FSEntry where
  | file (name : String) (ext : Option String) (text : String)
      (mtime : Option Int)
  | dir (name : String) (entries : List FSEntry)

def FSEntry.name : FSEntry → String
  | .file n _ _ _ => n
  | .dir n _ => n

mutual

/-- One entry of the `populate` walk (ingestion.rs:96-152): a directory is
created (`createSuperFolder` under the root, else `createSubFolder`) and
recursed into with `is_super = false`; a file goes to `process_file`. -/
def populate_entry (parse : Lang → String → List OwnedNode) :
    FSEntry → String → Bool → IndexTypes → FileTypes → Nat → List Call × Nat
  | .file name ext text _, parent_id, is_super, it, ft, fresh =>
    process_file parse name ext text parent_id is_super it ft fresh
  | .dir name entries, parent_id, is_super, it, ft, fresh =>
    let folder_id := mkId fresh
    let call :=
      if is_super then Call.createSuperFolder parent_id name
      else Call.createSubFolder parent_id name
    let r := populate_entries parse entries folder_id false it ft (fresh + 1)
    (call :: r.1, r.2)

/-- `populate` (ingestion.rs:71-159) over the entries of one directory;
spawned entry tasks are modelled in source order. -/
def populate_entries (parse : Lang → String → List OwnedNode) :
    List FSEntry → String → Bool → IndexTypes → FileTypes → Nat →
    List Call × Nat
  | [], _, _, _, _, fresh => ([], fresh)
  | e :: es, parent_id, is_super, it, ft, fresh =>
    let r1 := populate_entry parse e parent_id is_super it ft fresh
    let r2 := populate_entries parse es parent_id is_super it ft r1.2
    (r1.1 ++ r2.1, r2.2)

end

/-! ## Update / reconcile engine (updater.rs:28-306). -/

structure IndexedFile where
  id : String
  extracted_at : Int
deriving DecidableEq

/-- The indexed state of one folder level as the update pass fetches it:
`getRootFolders`/`getSubFolders` give `name → id` (with the indexed
contents attached for recursion) and `getRootFiles`/`getFolderFiles` give
`name → (id, extracted_at)`. -/
inductive IndexedFolder where
  | mk (subfolders : List (String × String × IndexedFolder))
       (files : List (String × IndexedFile))

def IndexedFolder.subfolders :
    IndexedFolder → List (String × String × IndexedFolder)
  | .mk s _ => s

def IndexedFolder.files : IndexedFolder → List (String × IndexedFile)
  | .mk _ f => f

def lookupSub (l : List (String × String × IndexedFolder)) (name : String) :
    Option (String × IndexedFolder) :=
  (List.find? (fun kv => kv.1 == name) l).map (fun kv => kv.2)

def lookupFile (l : List (String × IndexedFile)) (name : String) :
    Option IndexedFile :=
  (List.find? (fun kv => kv.1 == name) l).map (fun kv => kv.2)

/-- The re-ingestion test of updater.rs:111-133 and 240-261: with a
modification time, update when `mtime − extracted_at > update_interval`
(whole seconds, `Duration::num_seconds`); without one, always update. -/
def file_update_due (mtime : Option Int) (extracted_at : Int)
    (update_interval : Int) : Bool :=
  match mtime with
  | some m => decide (m - extracted_at > update_interval)
  | none => true

mutual

/-- One entry of the update walk (updater.rs:90-145 at the root with
`is_root = true`, updater.rs:219-273 inside a folder with
`is_root = false`; the two loops differ only in the maps consulted and the
`is_super` flag handed to `populate`/`process_file`). -/
def update_entry (parse : Lang → String → List OwnedNode) :
    FSEntry → IndexedFolder → String → Bool → IndexTypes → FileTypes →
    Int → Nat → List Call × Nat
  | .dir name entries, idx, parent_id, is_root, it, ft, interval, fresh =>
    (match lookupSub idx.subfolders name with
     | some fi =>
       update_scan parse entries fi.2 fi.1 false it ft interval fresh
     | none =>
       populate_entries parse entries parent_id is_root it ft fresh)
  | .file name ext text mtime, idx, parent_id, is_root, it, ft, _interval,
      fresh =>
    (match lookupFile idx.files name with
     | some f =>
       if file_update_due mtime f.extracted_at _interval then
         update_file parse ext text f.id it ft fresh
       else ([], fresh)
     | none =>
       process_file parse name ext text parent_id is_root it ft fresh)

def update_entries (parse : Lang → String → List OwnedNode) :
    List FSEntry → IndexedFolder → String → Bool → IndexTypes → FileTypes →
    Int → Nat → List Call × Nat
  | [], _, _, _, _, _, _, fresh => ([], fresh)
  | e :: es, idx, parent_id, is_root, it, ft, interval, fresh =>
    let r1 := update_entry parse e idx parent_id is_root it ft interval fresh
    let r2 :=
      update_entries parse es idx parent_id is_root it ft interval r1.2
    (r1.1 ++ r2.1, r2.2)

/-- One level of the update pass (`update` lines 67-177 /`update_folder`
lines 190-306): process every on-disk entry against the indexed maps, then
cascade-delete every indexed folder and file whose name matches no on-disk
entry (the source compares against the names of ALL entries, directories
and files alike). -/
def update_scan (parse : Lang → String → List OwnedNode) :
    List FSEntry → IndexedFolder → String → Bool → IndexTypes → FileTypes →
    Int → Nat → List Call × Nat
  | entries, idx, parent_id, is_root, it, ft, interval, fresh =>
    let r := update_entries parse entries idx parent_id is_root it ft interval
      fresh
    let names := entries.map FSEntry.name
    let folderDeletes :=
      (idx.subfolders.filter fun kv => !(names.any fun n => n == kv.1)).map
        fun kv => Call.deleteFolderCascade kv.2.1
    let fileDeletes :=
      (idx.files.filter fun kv => !(names.any fun n => n == kv.1)).map
        fun kv => Call.deleteFileCascade kv.2.id
    (r.1 ++ folderDeletes ++ fileDeletes, r.2)

end

mutual

/-- `true` iff, at this level and below, every on-disk entry is present in
the index and no indexed file is due for re-ingestion: the situation of an
unchanged tree updated within the interval. -/
def no_work_entry : FSEntry → IndexedFolder → Int → Bool
  | .file name _ _ mtime, idx, interval =>
    (match lookupFile idx.files name with
     | some f => !(file_update_due mtime f.extracted_at interval)
     | none => false)
  | .dir name entries, idx, interval =>
    (match lookupSub idx.subfolders name with
     | some fi => no_work_entries entries fi.2 interval
     | none => false)

def no_work_entries : List FSEntry → IndexedFolder → Int → Bool
  | [], _, _ => true
  | e :: es, idx, interval =>
    no_work_entry e idx interval && no_work_entries es idx interval

end

/-! ## The store graph and the cascading delete (utils.rs:177-287,
queries.rs store handlers). -/

/-- The fragment of the store graph the delete path touches: `File` and
`Entity` nodes (by id) with `File_to_Entity` and `Entity_to_Entity`
edges. -/
structure Store where
  files : List String
  entities : List String
  fileEntityEdges : List (String × String)
  entityEntityEdges : List (String × String)
deriving DecidableEq

/-- The `deleteFile` handler (queries.rs:685): drops the file's incoming
ownership edges and then the `File` node itself; dropping a node removes
it together with its incident edges.  The `Entity` nodes it owned are NOT
touched. -/
def Store.deleteFileHandler (s : Store) (fid : String) : Store :=
  { s with
    files := s.files.filter fun f => !(f == fid)
    fileEntityEdges := s.fileEntityEdges.filter fun e => !(e.1 == fid) }

/-- The `getFileEntities` handler (queries.rs:600): `n_from_id(file_id)`
followed by `out("File_to_Entity")`.  On a deleted id the traversal has no
start node: modelled as `none` (the client treats an id-not-found error
and an empty list the same way on this path — nothing is recursed into). -/
def Store.getFileEntitiesHandler (s : Store) (fid : String) :
    Option (List String) :=
  if s.files.contains fid then
    some (((s.fileEntityEdges.filter fun e => e.1 == fid).map fun e => e.2))
  else none

/-- The `getSubEntities` handler (queries.rs:484). -/
def Store.getSubEntitiesHandler (s : Store) (eid : String) :
    Option (List String) :=
  if s.entities.contains eid then
    some (((s.entityEntityEdges.filter fun e => e.1 == eid).map fun e => e.2))
  else none

/-- The `deleteSuperEntity` / `deleteSubEntity` handlers (queries.rs:822 /
707): both drop the entity's incoming ownership edge(s) and the `Entity`
node (with its incident edges); they differ only in which edge label is
dropped explicitly and in the embedded-vector drop, which this fragment
does not model. -/
def Store.deleteEntityHandler (s : Store) (eid : String) : Store :=
  { s with
    entities := s.entities.filter fun e => !(e == eid)
    fileEntityEdges := s.fileEntityEdges.filter fun e => !(e.2 == eid)
    entityEntityEdges :=
      s.entityEntityEdges.filter fun e => !(e.1 == eid || e.2 == eid) }

/-- `delete_entities` (utils.rs:240-287) driving the store: fetch the
children (`getFileEntities` when `is_super`, else `getSubEntities`); on an
error stop (the caller ignores it); otherwise, per child, recurse as a sub
entity and then POST the delete endpoint selected by the CURRENT level's
`is_super`.  The spawned per-child tasks are modelled in source order; the
graph recursion is bounded by explicit fuel (the store graphs reachable
here are finite DAGs, and every theorem below supplies ample fuel). -/
def delete_entities (fuel : Nat) (s : Store) (parent_id : String)
    (is_super : Bool) : Store :=
  match fuel with
  | 0 => s
  | fuel + 1 =>
    let res :=
      if is_super then s.getFileEntitiesHandler parent_id
      else s.getSubEntitiesHandler parent_id
    match res with
    | none => s
    | some ids =>
      ids.foldl
        (fun st eid =>
          let st1 := delete_entities fuel st eid false
          st1.deleteEntityHandler eid)
        s

/-- `delete_files` (utils.rs:216-238): per file (tasks in source order),
POST `deleteFile` FIRST and only then cascade `delete_entities` on the
same id; both results are discarded (`let _ = ...`). -/
def delete_files (fuel : Nat) (s : Store) (unseen_files : List String)
    (file_name_ids : List (String × String)) : Store :=
  unseen_files.foldl
    (fun st name =>
      match List.lookup name file_name_ids with
      | none => st
      | some fid =>
        let st1 := st.deleteFileHandler fid
        delete_entities fuel st1 fid true)
    s

/-! ## Chunker lemmas. -/

theorem splitAfter_flatten (sep : Char) (l : List Char) :
    (splitAfter sep l).flatten = l := by
  induction l with
  | nil => rfl
  | cons c cs ih =>
    rw [splitAfter]
    cases hs : splitAfter sep cs with
    | nil =>
      rw [hs] at ih
      simp only [List.flatten_nil] at ih
      simp [← ih]
    | cons p ps =>
      rw [hs] at ih
      by_cases hc : c = sep <;> simp_all

theorem splitAfter_ne_nil (sep : Char) (l : List Char) :
    ∀ p ∈ splitAfter sep l, p ≠ [] := by
  induction l with
  | nil => intro p hp; simp [splitAfter] at hp
  | cons c cs ih =>
    intro p hp
    rw [splitAfter] at hp
    cases hs : splitAfter sep cs with
    | nil =>
      rw [hs] at hp
      simp only [List.mem_singleton] at hp
      simp [hp]
    | cons q qs =>
      rw [hs] at hp
      by_cases hc : c = sep
      · simp only [if_pos hc, List.mem_cons] at hp
        rcases hp with h | h | h
        · simp [h]
        · exact ih p (by rw [hs]; simp [h])
        · exact ih p (by rw [hs]; simp [h])
      · simp only [if_neg hc, List.mem_cons] at hp
        rcases hp with h | h
        · simp [h]
        · exact ih p (by rw [hs]; simp [h])

theorem hardSplit_flatten (l : List Char) : (hardSplit l).flatten = l := by
  rw [hardSplit]
  split
  · simp [*]
  · rw [List.flatten_cons, hardSplit_flatten (l.drop CHUNK_TARGET)]
    exact List.take_append_drop _ l
termination_by l.length
decreasing_by
  simp only [List.length_drop]
  rename_i h
  have hne : l.length ≠ 0 := fun hl => h (List.eq_nil_of_length_eq_zero hl)
  simp only [CHUNK_TARGET]
  omega

theorem hardSplit_length (l : List Char) :
    ∀ p ∈ hardSplit l, p.length ≤ CHUNK_TARGET := by
  by_cases hcond : l = []
  · rw [hardSplit]; simp [hcond]
  · rw [hardSplit]
    simp only [dif_neg hcond]
    intro p hp
    rcases List.mem_cons.mp hp with h | h
    · subst h; exact List.length_take_le _ _
    · exact hardSplit_length _ p h
termination_by l.length
decreasing_by
  simp only [List.length_drop]
  have hne : l.length ≠ 0 := fun hl => hcond (List.eq_nil_of_length_eq_zero hl)
  simp only [CHUNK_TARGET]
  omega

theorem hardSplit_ne_nil (l : List Char) :
    ∀ p ∈ hardSplit l, p ≠ [] := by
  by_cases hcond : l = []
  · rw [hardSplit]; simp [hcond]
  · rw [hardSplit]
    simp only [dif_neg hcond]
    intro p hp
    rcases List.mem_cons.mp hp with h | h
    · subst h
      intro hnil
      have hlen := congrArg List.length hnil
      simp only [List.length_take, List.length_nil, CHUNK_TARGET] at hlen
      have hne : l.length ≠ 0 := fun h0 => hcond (List.eq_nil_of_length_eq_zero h0)
      omega
    · exact hardSplit_ne_nil _ p h
termination_by l.length
decreasing_by
  simp only [List.length_drop]
  have hne : l.length ≠ 0 := fun hl => hcond (List.eq_nil_of_length_eq_zero hl)
  simp only [CHUNK_TARGET]
  omega

theorem flatten_map_flatten (g : List Char → List (List Char))
    (ps : List (List Char)) (h : ∀ p ∈ ps, (g p).flatten = p) :
    ((ps.map g).flatten).flatten = ps.flatten := by
  induction ps with
  | nil => rfl
  | cons p ps ih =>
    simp only [List.map_cons, List.flatten_cons, List.flatten_append]
    rw [h p (by simp), ih fun q hq => h q (by simp [hq])]

theorem chunkWith_flatten (ladder : List Char) (l : List Char) :
    (chunkWith ladder l).flatten = l := by
  induction ladder generalizing l with
  | nil =>
    rw [chunkWith]
    by_cases h0 : l = []
    · simp [h0]
    · simp only [if_neg h0]
      by_cases hl : l.length ≤ CHUNK_TARGET
      · simp [hl]
      · simp [hl, hardSplit_flatten]
  | cons sep rest ih =>
    rw [chunkWith]
    by_cases h0 : l = []
    · simp [h0]
    · simp only [if_neg h0]
      by_cases hl : l.length ≤ CHUNK_TARGET
      · simp [hl]
      · simp only [if_neg hl]
        rw [flatten_map_flatten _ _ fun p _ => ih p, splitAfter_flatten]

theorem chunkWith_length (ladder : List Char) (l : List Char) :
    ∀ p ∈ chunkWith ladder l, p.length ≤ CHUNK_TARGET := by
  induction ladder generalizing l with
  | nil =>
    intro p hp
    rw [chunkWith] at hp
    by_cases h0 : l = []
    · simp [h0] at hp
    · simp only [if_neg h0] at hp
      by_cases hl : l.length ≤ CHUNK_TARGET
      · simp only [if_pos hl, List.mem_singleton] at hp
        subst hp; exact hl
      · simp only [if_neg hl] at hp
        exact hardSplit_length l p hp
  | cons sep rest ih =>
    intro p hp
    rw [chunkWith] at hp
    by_cases h0 : l = []
    · simp [h0] at hp
    · simp only [if_neg h0] at hp
      by_cases hl : l.length ≤ CHUNK_TARGET
      · simp only [if_pos hl, List.mem_singleton] at hp
        subst hp; exact hl
      · simp only [if_neg hl, List.mem_flatten, List.mem_map] at hp
        obtain ⟨cl, ⟨q, _, hq⟩, hpcl⟩ := hp
        exact ih q p (hq ▸ hpcl)

theorem chunkWith_ne_nil (ladder : List Char) (l : List Char) :
    ∀ p ∈ chunkWith ladder l, p ≠ [] := by
  induction ladder generalizing l with
  | nil =>
    intro p hp
    rw [chunkWith] at hp
    by_cases h0 : l = []
    · simp [h0] at hp
    · simp only [if_neg h0] at hp
      by_cases hl : l.length ≤ CHUNK_TARGET
      · simp only [if_pos hl, List.mem_singleton] at hp
        subst hp; exact h0
      · simp only [if_neg hl] at hp
        exact hardSplit_ne_nil l p hp
  | cons sep rest ih =>
    intro p hp
    rw [chunkWith] at hp
    by_cases h0 : l = []
    · simp [h0] at hp
    · simp only [if_neg h0] at hp
      by_cases hl : l.length ≤ CHUNK_TARGET
      · simp only [if_pos hl, List.mem_singleton] at hp
        subst hp; exact h0
      · simp only [if_neg hl, List.mem_flatten, List.mem_map] at hp
        obtain ⟨cl, ⟨q, _, hq⟩, hpcl⟩ := hp
        exact ih q p (hq ▸ hpcl)

theorem foldl_string_append (l : List String) (acc : String) :
    l.foldl (fun r s => r ++ s) acc = acc ++ l.foldl (fun r s => r ++ s) "" := by
  induction l generalizing acc with
  | nil => simp
  | cons x xs ih =>
    simp only [List.foldl_cons]
    rw [ih (acc ++ x), ih (("" : String) ++ x)]
    simp [String.append_assoc]

theorem join_map_mk (ps : List (List Char)) :
    String.join (ps.map fun p => String.mk p) = String.mk ps.flatten := by
  induction ps with
  | nil => rfl
  | cons p ps ih =>
    show (List.foldl (fun r s => r ++ s) "" (String.mk p :: ps.map _)) = _
    rw [List.foldl_cons, foldl_string_append]
    show ("" ++ String.mk p) ++ String.join (ps.map fun p => String.mk p) = _
    rw [ih]
    apply String.ext
    simp [String.mk]

/-! ## Claim theorems. -/

/-- C6: for every input string, `chunk_entity` returns a finite ordered
sequence of non-empty chunks, each of length at most 2048 characters,
whose concatenation equals the input; and, being a pure function of its
input, repeated calls on the same input return the same sequence. -/
theorem chunk_entity_correct (s : String) :
    (∀ c ∈ chunk_entity s, c ≠ "" ∧ c.length ≤ CHUNK_TARGET) ∧
    String.join (chunk_entity s) = s ∧
    chunk_entity s = chunk_entity s := by
  refine ⟨?_, ?_, rfl⟩
  · intro c hc
    simp only [chunk_entity, List.mem_map] at hc
    obtain ⟨p, hp, rfl⟩ := hc
    refine ⟨fun h0 => ?_, ?_⟩
    · exact chunkWith_ne_nil _ _ p hp (congrArg String.data h0)
    · exact chunkWith_length _ _ p hp
  · rw [chunk_entity, join_map_mk, chunkWith_flatten]

/-- Witness for C6 at the concrete input `"ab"`. -/
theorem chunk_entity_correct_witness :
    (("ab" : String) ≠ "" ∧ ("ab" : String).length ≤ CHUNK_TARGET) ∧
    String.join (chunk_entity "ab") = "ab" :=
  ⟨(chunk_entity_correct "ab").1 "ab" (by decide),
   (chunk_entity_correct "ab").2.1⟩

/-- Any all-whitespace text trips the `text.trim().is_empty()` guard of
`embed_entity_async`: the call fails with no request issued, whatever the
environment and network do. -/
theorem embed_all_whitespace_fails (env_key : Option String)
    (oracle : String → Except String (List Float)) (s : String)
    (hws : ∀ c ∈ s.data, rust_is_whitespace c = true) :
    embed_entity_async env_key oracle s =
      ([], Except.error "Cannot embed empty text") := by
  have htrim : rust_trim s.data = [] := by
    unfold rust_trim
    rw [List.dropWhile_eq_nil_iff.mpr hws]
    rfl
  unfold embed_entity_async
  rw [htrim]
  rfl

/-- A job with a non-empty chunk whose embedding call fails increments
`PENDING_EMBEDDINGS` and leaves `COMPLETED_EMBEDDINGS` untouched. -/
theorem dispatch_failed_embed (env_key : Option String)
    (oracle : String → Except String (List Float)) (j : EmbeddingJob)
    (c : Counters) (hne : j.chunk ≠ "") (msg : String)
    (hfail : (embed_entity_async env_key oracle j.chunk).2 =
      Except.error msg) :
    dispatch_job env_key oracle j c = { c with pending := c.pending + 1 } := by
  have hcne : (j.chunk == "") = false := by
    cases hsq : j.chunk == ""
    · rfl
    · exact absurd (eq_of_beq hsq) hne
  unfold dispatch_job
  rw [hcne, hfail]
  rfl

/-- C10: every all-whitespace input (including non-empty ones) makes
`embed_entity_async` return an error with an empty request trace — no HTTP
request reaches the embedding service — even though for a non-empty such
chunk the dispatcher's guard `chunk.is_empty()` accepts the job (the
pending counter is incremented and, the embedding having failed, nothing
else happens). -/
theorem whitespace_only_embed_rejected (env_key : Option String)
    (oracle : String → Except String (List Float)) (s : String)
    (hws : ∀ c ∈ s.data, rust_is_whitespace c = true) :
    embed_entity_async env_key oracle s =
      ([], Except.error "Cannot embed empty text") ∧
    (s ≠ "" →
      ∀ eid port c, dispatch_job env_key oracle ⟨s, eid, port⟩ c =
        { c with pending := c.pending + 1 }) := by
  have hembed := embed_all_whitespace_fails env_key oracle s hws
  refine ⟨hembed, fun hne eid port c => ?_⟩
  exact dispatch_failed_embed env_key oracle ⟨s, eid, port⟩ c hne
    "Cannot embed empty text" (by rw [hembed])

/-- Witness for C10 at the single-space chunk. -/
theorem whitespace_only_embed_rejected_witness :
    embed_entity_async none (fun _ => Except.error "e") " " =
      ([], Except.error "Cannot embed empty text") ∧
    dispatch_job none (fun _ => Except.error "e") ⟨" ", "e1", 6969⟩ ⟨0, 0⟩ =
      ⟨1, 0⟩ := by
  have h := whitespace_only_embed_rejected none (fun _ => Except.error "e") " "
    (by decide)
  exact ⟨h.1, h.2 (by decide) "e1" 6969 ⟨0, 0⟩⟩

/-- C2, failing input: a job whose chunk is non-empty (so the dispatcher
accepts it and increments `PENDING_EMBEDDINGS`) but whose embedding call
fails (here: an all-whitespace chunk, rejected by `embed_entity_async`
regardless of environment or network).  `COMPLETED_EMBEDDINGS` is NOT
incremented — the increment sits only in the `Ok` arm of main.rs:62-74 —
so the wait loop's exit condition `COMPLETED_EMBEDDINGS ==
PENDING_EMBEDDINGS` is never reached. -/
theorem failed_embed_leaves_wait_unsatisfied (env_key : Option String)
    (oracle : String → Except String (List Float)) :
    dispatch_job env_key oracle ⟨" ", "e1", 6969⟩ ⟨0, 0⟩ = ⟨1, 0⟩ ∧
    wait_can_exit ⟨1, 0⟩ = false := by
  refine ⟨?_, rfl⟩
  exact dispatch_failed_embed env_key oracle ⟨" ", "e1", 6969⟩ ⟨0, 0⟩
    (by decide) "Cannot embed empty text"
    (by rw [embed_all_whitespace_fails env_key oracle " " (by decide)])

/-- Witness for C2's evaluation with a concrete environment and network. -/
theorem failed_embed_leaves_wait_unsatisfied_witness :
    dispatch_job none (fun _ => Except.error "x") ⟨" ", "e1", 6969⟩ ⟨0, 0⟩ =
      ⟨1, 0⟩ ∧
    wait_can_exit ⟨1, 0⟩ = false :=
  failed_embed_leaves_wait_unsatisfied none (fun _ => Except.error "x")

/-- C4, counterexample: the sibling `order` counter is fetched INSIDE each
spawned task (ingestion.rs:340-341, 495-496), not before the spawn, so the
value a sibling receives depends on the scheduler: under the reversing
schedule the first-in-source of two siblings receives order 2, under the
identity schedule it receives order 1 — the claimed schedule-independent
assignment `order = source position` is false. -/
theorem sibling_order_not_source_deterministic :
    Function.Bijective (fun i : Fin 2 => i.rev) ∧
    sibling_order 2 (fun i => i.rev) 0 = 2 ∧
    sibling_order 2 (fun i => i) 0 = 1 := by decide

/-- C4, amended: for every schedule (bijection) the sibling orders are
exactly the values 1..n, with no gaps and no duplicates; but which sibling
receives which order is a function of the schedule, not of source
position, because the counter is fetched inside the spawned task. -/
theorem sibling_orders_permutation (n : Nat) (σ : Fin n → Fin n)
    (hσ : Function.Bijective σ) :
    (∀ i, 1 ≤ sibling_order n σ i ∧ sibling_order n σ i ≤ n) ∧
    Function.Injective (sibling_order n σ) ∧
    (∀ k, 1 ≤ k → k ≤ n → ∃ i, sibling_order n σ i = k) := by
  refine ⟨fun i => ⟨Nat.le_add_left _ _, ?_⟩, ?_, ?_⟩
  · have := (σ i).isLt
    unfold sibling_order
    omega
  · intro a b hab
    unfold sibling_order at hab
    exact hσ.1 (Fin.ext (by omega))
  · intro k h1 hk
    obtain ⟨i, hi⟩ := hσ.2 ⟨k - 1, by omega⟩
    refine ⟨i, ?_⟩
    unfold sibling_order
    rw [hi]
    simp
    omega

/-- Witness for C4's amended statement at `n = 1`, identity schedule. -/
theorem sibling_orders_permutation_witness :
    1 ≤ sibling_order 1 (fun i => i) 0 ∧ sibling_order 1 (fun i => i) 0 ≤ 1 :=
  (sibling_orders_permutation 1 (fun i => i) (by decide)).1 0

/-- C7: in `process_entity`, when the extension is `"py"`, the node kind is
`"block"` and its children are non-empty, no entity is created for the
block itself; the whole result is exactly the processing of its children
with a fresh sibling counter starting at 1 and `is_super = false`
(`process_children` passes `false` for every child). -/
theorem py_block_passthrough (kind : String) (sb eb : Nat) (text : String)
    (children : List OwnedNode) (parent_id : String) (is_super : Bool)
    (order : Nat) (it : IndexTypes) (fresh : Nat)
    (hkind : kind = "block") (hne : children ≠ []) :
    process_entity (.mk kind sb eb text children) parent_id is_super order
      "py" it fresh =
    process_children children parent_id "py" it 1 fresh := by
  subst hkind
  have hc : children.isEmpty = false := by
    cases children with
    | nil => exact absurd rfl hne
    | cons a b => rfl
  rw [process_entity]
  simp [hc]

/-- Witness for C7: a `block` wrapping one `return_statement`. -/
theorem py_block_passthrough_witness :
    process_entity
      (.mk "block" 0 1 "x" [.mk "return_statement" 0 1 "x" []]) "f1" true 1
      "py" [("py", ["return_statement"])] 0 =
    process_children [.mk "return_statement" 0 1 "x" []] "f1" "py"
      [("py", ["return_statement"])] 1 0 :=
  py_block_passthrough "block" 0 1 "x" [.mk "return_statement" 0 1 "x" []]
    "f1" true 1 [("py", ["return_statement"])] 0 rfl (List.cons_ne_nil _ _)

/-- C8: a file whose (defaulted) extension is listed in neither
`file_types.supported` nor `file_types.unsupported` (with `ALL` absent
from the relevant list, which `ext_listed = false` encodes) produces
exactly the one create-file call carrying its full text: no entities are
created and no embedding job is enqueued, on either the tree-sitter
supported or the unsupported branch. -/
theorem unlisted_extension_creates_file_only
    (parse : Lang → String → List OwnedNode) (name : String)
    (ext : Option String) (text parent_id : String) (is_super : Bool)
    (it : IndexTypes) (ft : FileTypes) (fresh : Nat)
    (hsup : ext_listed ft.supported (ext.getD "txt") = false)
    (huns : ext_listed ft.unsupported (ext.getD "txt") = false) :
    process_file parse name ext text parent_id is_super it ft fresh =
      ([if is_super then Call.createSuperFile parent_id name (ext.getD "txt") text
        else Call.createFile parent_id name (ext.getD "txt") text], fresh) := by
  unfold process_file
  cases hl : get_language ext <;> simp [hsup, huns]

/-- Witness for C8: a `.rs` file (tree-sitter-supported grammar) under
`file_types.json = {supported: ["py"], unsupported: ["md"]}`. -/
theorem unlisted_extension_creates_file_only_witness :
    process_file (fun _ _ => []) "a.rs" (some "rs") "fn main() {}" "r1" true
      [] ⟨["py"], ["md"]⟩ 0 =
      ([Call.createSuperFile "r1" "a.rs" "rs" "fn main() {}"], 0) := by
  have h := unlisted_extension_creates_file_only (fun _ _ => []) "a.rs"
    (some "rs") "fn main() {}" "r1" true [] ⟨["py"], ["md"]⟩ 0
    (by decide) (by decide)
  simpa using h

/-- C1, failing input: `index-types.json = {"py": ["function_definition"]}`
and a `.py` file whose parse tree has one top-level `function_definition`.
The "has super content" preamble of `ingest_entities` (ingestion.rs:343-394)
fires — the raw-extension entry has a non-`"ALL"` element and lists the
kind — and `process_entity` then creates the same entity again, so the
single matching top-level node receives TWO identical `createSuperEntity`
calls (and its chunk is enqueued twice), not one. -/
theorem top_level_entity_created_twice :
    ((ingest_entities [.mk "function_definition" 0 8 "def f():" []] "f1" "py"
        [("py", ["function_definition"])] 0).1.count
      (Call.createSuperEntity "f1" "function_definition" "def f():" 0 8 1)) = 2 ∧
    ((ingest_entities [.mk "function_definition" 0 8 "def f():" []] "f1" "py"
        [("py", ["function_definition"])] 0).1.countP
      (fun c => match c with
        | Call.enqueueJob chunk _ => chunk == "def f():"
        | _ => false)) = 2 := by decide

/-- C3, failing input: a store holding one file `"f"` owning one entity
`"e"`.  `delete_files` POSTs `deleteFile` FIRST (utils.rs:225-227), which
removes the `File` node, and only then runs `delete_entities`
(utils.rs:229), whose `getFileEntities` can no longer reach anything from
the deleted id — so the entity `"e"` survives the "cascading" delete. -/
theorem delete_files_leaves_orphan_entity :
    delete_files 5 ⟨["f"], ["e"], [("f", "e")], []⟩ ["a.py"] [("a.py", "f")] =
      ⟨[], ["e"], [], []⟩ ∧
    "e" ∈ (delete_files 5 ⟨["f"], ["e"], [("f", "e")], []⟩ ["a.py"]
      [("a.py", "f")]).entities := by decide

/-- C9: a path without an extension (or with a non-UTF-8 one, both
modelled as `none`) is treated as having extension `"txt"`: `get_language`
returns `none`, so both `process_file` and `update_file` take the
unsupported branch, and whether chunk entities and embedding jobs are
produced is governed exactly by whether `"txt"` (or `"ALL"`) appears in
`file_types.unsupported`. -/
theorem no_extension_treated_as_txt (parse : Lang → String → List OwnedNode)
    (name text parent_id file_id : String) (is_super : Bool)
    (it : IndexTypes) (ft : FileTypes) (fresh : Nat) :
    get_language none = none ∧
    (ext_listed ft.unsupported "txt" = false →
      process_file parse name none text parent_id is_super it ft fresh =
        ([if is_super then Call.createSuperFile parent_id name "txt" text
          else Call.createFile parent_id name "txt" text], fresh)) ∧
    (ext_listed ft.unsupported "txt" = true →
      process_file parse name none text parent_id is_super it ft fresh =
        ((if is_super then Call.createSuperFile parent_id name "txt" text
          else Call.createFile parent_id name "txt" text) ::
           (process_unsupported_chunks (chunk_entity text) (mkId fresh) 1
             (fresh + 1)).1,
         (process_unsupported_chunks (chunk_entity text) (mkId fresh) 1
           (fresh + 1)).2)) ∧
    (ext_listed ft.unsupported "txt" = false →
      update_file parse none text file_id it ft fresh =
        ([Call.updateFile file_id text], fresh)) ∧
    (ext_listed ft.unsupported "txt" = true →
      update_file parse none text file_id it ft fresh =
        (Call.updateFile file_id text :: Call.deleteEntitiesCascade file_id ::
           (process_unsupported_chunks (chunk_entity text) file_id 1 fresh).1,
         (process_unsupported_chunks (chunk_entity text) file_id 1
           fresh).2)) := by
  have hnone : get_language none = none := rfl
  refine ⟨rfl, fun h => ?_, fun h => ?_, fun h => ?_, fun h => ?_⟩ <;>
    simp [process_file, update_file, hnone, h]

mutual

theorem no_work_entry_no_creates (parse : Lang → String → List OwnedNode)
    (e : FSEntry) (idx : IndexedFolder) (parent_id : String) (is_root : Bool)
    (it : IndexTypes) (ft : FileTypes) (interval : Int) (fresh : Nat)
    (h : no_work_entry e idx interval = true) :
    ∀ c ∈ (update_entry parse e idx parent_id is_root it ft interval fresh).1,
      c.is_entity_create = false := by
  cases e with
  | file name ext text mtime =>
    rw [no_work_entry] at h
    rw [update_entry]
    cases hf : lookupFile idx.files name with
    | none => rw [hf] at h; simp at h
    | some f =>
      rw [hf] at h
      simp only [Bool.not_eq_true'] at h
      simp [h]
  | dir name entries =>
    rw [no_work_entry] at h
    rw [update_entry]
    cases hs : lookupSub idx.subfolders name with
    | none => rw [hs] at h; simp at h
    | some fi =>
      rw [hs] at h
      simp only at h
      exact no_work_scan_no_creates parse entries fi.2 fi.1 false it ft
        interval fresh h
termination_by (sizeOf e, 0)

theorem no_work_entries_no_creates (parse : Lang → String → List OwnedNode)
    (es : List FSEntry) (idx : IndexedFolder) (parent_id : String)
    (is_root : Bool) (it : IndexTypes) (ft : FileTypes) (interval : Int)
    (fresh : Nat) (h : no_work_entries es idx interval = true) :
    ∀ c ∈ (update_entries parse es idx parent_id is_root it ft interval
        fresh).1, c.is_entity_create = false := by
  cases es with
  | nil => rw [update_entries]; simp
  | cons e es =>
    rw [no_work_entries, Bool.and_eq_true] at h
    rw [update_entries]
    intro c hc
    rcases List.mem_append.mp hc with hm | hm
    · exact no_work_entry_no_creates parse e idx parent_id is_root it ft
        interval fresh h.1 c hm
    · exact no_work_entries_no_creates parse es idx parent_id is_root it ft
        interval _ h.2 c hm
termination_by (sizeOf es, 0)

theorem no_work_scan_no_creates (parse : Lang → String → List OwnedNode)
    (es : List FSEntry) (idx : IndexedFolder) (parent_id : String)
    (is_root : Bool) (it : IndexTypes) (ft : FileTypes) (interval : Int)
    (fresh : Nat) (h : no_work_entries es idx interval = true) :
    ∀ c ∈ (update_scan parse es idx parent_id is_root it ft interval
        fresh).1, c.is_entity_create = false := by
  rw [update_scan]
  intro c hc
  rcases List.mem_append.mp hc with hm | hm
  · rcases List.mem_append.mp hm with hm2 | hm2
    · exact no_work_entries_no_creates parse es idx parent_id is_root it ft
        interval fresh h c hm2
    · obtain ⟨kv, _, rfl⟩ := List.mem_map.mp hm2
      rfl
  · obtain ⟨kv, _, rfl⟩ := List.mem_map.mp hm
    rfl
termination_by (sizeOf es, 1)

end

/-- C5: during an update pass, a file present in the index is re-ingested
(`update_file` is called) iff `mtime − extracted_at > update_interval` or
the mtime is unavailable (`file_update_due`), and otherwise the entry is a
no-op; consequently an unchanged tree — every on-disk entry present in the
index and no file due — produces a trace with zero `createSuperEntity` /
`createSubEntity` calls. -/
theorem update_decision_and_noop (parse : Lang → String → List OwnedNode) :
    (∀ (name : String) (ext : Option String) (text : String)
        (mtime : Option Int) (idx : IndexedFolder) (parent_id : String)
        (is_root : Bool) (it : IndexTypes) (ft : FileTypes) (interval : Int)
        (fresh : Nat) (f : IndexedFile),
      lookupFile idx.files name = some f →
      update_entry parse (.file name ext text mtime) idx parent_id is_root
          it ft interval fresh =
        (if file_update_due mtime f.extracted_at interval then
          update_file parse ext text f.id it ft fresh
         else ([], fresh))) ∧
    (∀ (es : List FSEntry) (idx : IndexedFolder) (parent_id : String)
        (is_root : Bool) (it : IndexTypes) (ft : FileTypes) (interval : Int)
        (fresh : Nat),
      no_work_entries es idx interval = true →
      ∀ c ∈ (update_scan parse es idx parent_id is_root it ft interval
          fresh).1, c.is_entity_create = false) := by
  constructor
  · intro name ext text mtime idx parent_id is_root it ft interval fresh f hf
    rw [update_entry, hf]
  · intro es idx parent_id is_root it ft interval fresh h
    exact no_work_scan_no_creates parse es idx parent_id is_root it ft
      interval fresh h

/-- Witness for C5: a fresh indexed file (`mtime − extracted_at = 3 ≤ 5`)
is a no-op, and a scan of an empty directory against an index with one
stale file emits only a non-create cascade delete. -/
theorem update_decision_and_noop_witness :
    update_entry (fun _ _ => []) (.file "a.py" (some "py") "t" (some 3))
      (.mk [] [("a.py", ⟨"f1", 0⟩)]) "r" true [] ⟨[], []⟩ 5 0 = ([], 0) ∧
    Call.is_entity_create (Call.deleteFileCascade "f9") = false := by
  have h := update_decision_and_noop (fun _ _ => [])
  constructor
  · have h1 := h.1 "a.py" (some "py") "t" (some 3)
      (.mk [] [("a.py", ⟨"f1", 0⟩)]) "r" true [] ⟨[], []⟩ 5 0 ⟨"f1", 0⟩ rfl
    simpa [file_update_due] using h1
  · have h2 := h.2 [] (.mk [] [("gone", ⟨"f9", 0⟩)]) "r" true [] ⟨[], []⟩ 5 0
      rfl
    apply h2
    simp [update_scan, update_entries, IndexedFolder.subfolders,
      IndexedFolder.files]

/-- Witness for C9: an extensionless file named `"LICENSE"`, once with
`unsupported = []` (file node only) and once with `unsupported = ["txt"]`
for `update_file` (chunk path taken). -/
theorem no_extension_treated_as_txt_witness :
    process_file (fun _ _ => []) "LICENSE" none "hi" "r1" true [] ⟨[], []⟩ 0 =
      ([Call.createSuperFile "r1" "LICENSE" "txt" "hi"], 0) ∧
    update_file (fun _ _ => []) none "hi" "f1" [] ⟨[], ["txt"]⟩ 0 =
      (Call.updateFile "f1" "hi" :: Call.deleteEntitiesCascade "f1" ::
         (process_unsupported_chunks (chunk_entity "hi") "f1" 1 0).1,
       (process_unsupported_chunks (chunk_entity "hi") "f1" 1 0).2) := by
  constructor
  · have h := (no_extension_treated_as_txt (fun _ _ => []) "LICENSE" "hi" "r1"
      "f1" true [] ⟨[], []⟩ 0).2.1 (by decide)
    simpa using h
  · exact (no_extension_treated_as_txt (fun _ _ => []) "LICENSE" "hi" "r1"
      "f1" true [] ⟨[], ["txt"]⟩ 0).2.2.2.2 (by decide)

end Medkit
